import Mathlib

/-!
Verification of the core logic of generate_evidence_doc.py, a utility that
walks a folder tree of images, optionally renames the images to a numeric
sequence, and assembles a paginated document mirroring the folder structure.

The embedding below translates the pure/structural parts of the Python
source into Lean definitions:
  natural_sort_key / pysort     -- the natural sorting used everywhere
  to_chinese_num / convert_folder_name  -- the naming transformer
  computeLayout                 -- the image layout arithmetic, in exact
                                   rational arithmetic (the Python source
                                   uses floating point; all constants are
                                   decimal and all inputs are integers, so
                                   the rational model is the exact-real
                                   semantics of the same expressions)
  collect_files                 -- the filesystem walker
  rename_images_pass            -- one folder pass of the renaming utility
                                   (sequential linearization of the thread
                                   pool: each submitted rename completes
                                   before the next existence check)
  emitBlocks                    -- the document assembler of add_headings,
                                   abstracted to a list of blocks
  save_document                 -- the save step of create_document, with
                                   the operating system lock state of the
                                   output file modelled as a boolean

Recursive functions that recurse through nested lists take an explicit
fuel argument so that every definition is structurally recursive and
evaluates by kernel reduction; the fuel passed by the top level wrappers
is a size of the input that strictly exceeds the nesting depth, and fuel
stability is proved for the walker.
-/

set_option maxRecDepth 4000

/-! ## Characters and Python string helpers -/

/-- Python str.strip removes leading and trailing whitespace. We model the
ASCII whitespace characters Python recognizes. -/
def isPySpace (c : Char) : Bool :=
  c = ' ' || c = '\t' || c = '\n' || c = '\r' || c = '\x0b' || c = '\x0c'

/-- Python str.strip on a list of characters. -/
def pyStrip (s : List Char) : List Char :=
  ((s.dropWhile isPySpace).reverse.dropWhile isPySpace).reverse

/-- Value of a run of decimal digits, as Python int() reads it
(leading zeros allowed). -/
def digitsToNat (ds : List Char) : ℕ :=
  ds.foldl (fun a c => 10 * a + (c.toNat - '0'.toNat)) 0

/-- Suffix of a filename in the sense of pathlib Path.suffix: the part of
the name from its last dot, provided that dot is neither the first nor the
last character; otherwise the suffix is empty. -/
def pySuffix (s : List Char) : List Char :=
  match (s.reverse).span (fun c => c ≠ '.') with
  | (revExt, '.' :: _ :: _) =>
      if revExt.isEmpty then [] else '.' :: revExt.reverse
  | _ => []

/-- Lowercased suffix of a filename, as a string; the source checks
item.suffix.lower() against the supported set. -/
def lowerSuffix (name : String) : String :=
  String.mk ((pySuffix name.toList).map Char.toLower)

/-- Supported image extensions from the source: SUPPORTED_EXTENSIONS. -/
def SUPPORTED_EXTENSIONS : List String := [".png", ".jpg", ".jpeg"]

/-- An entry name qualifies as an image when its lowercased suffix is in
the supported set. The walker and the renamer test only the suffix. -/
def qualifies (name : String) : Bool :=
  SUPPORTED_EXTENSIONS.contains (lowerSuffix name)

/-! ## natural_sort_key

The source splits a name on maximal digit runs, mapping digit runs to
integers and the text in between to lowercase, and Python compares the
resulting lists lexicographically. Boundary positions contribute empty
text chunks exactly as re.split does, which matters for ordering. -/

/-- One element of a natural sort key: a lowercased text chunk or the
integer value of a digit run. -/
inductive KeyElem where
  | txt (s : List Char) : KeyElem
  | num (n : ℕ) : KeyElem
deriving DecidableEq

/-- Group a character list into maximal runs of digits and non-digits,
tagged with true for digit runs. -/
def natKeyChunks : List Char → List (Bool × List Char)
  | [] => []
  | c :: rest =>
    match natKeyChunks rest with
    | [] => [(c.isDigit, [c])]
    | (b, chunk) :: more =>
        if b = c.isDigit then (b, c :: chunk) :: more
        else (c.isDigit, [c]) :: (b, chunk) :: more

/-- The key produced by natural_sort_key in the source: re.split on digit
runs keeps empty text chunks at the boundaries, digit runs become their
integer value, text chunks are lowercased. -/
def natural_sort_key (s : List Char) : List KeyElem :=
  match natKeyChunks s with
  | [] => [KeyElem.txt []]
  | chunks =>
      let lead := if (chunks.head?.map Prod.fst).getD false then [KeyElem.txt []] else []
      let trail := if ((chunks.getLast?).map Prod.fst).getD false then [KeyElem.txt []] else []
      let body := chunks.map (fun bc =>
        if bc.fst then KeyElem.num (digitsToNat bc.snd)
        else KeyElem.txt (bc.snd.map Char.toLower))
      lead ++ body ++ trail

/-- Python string less-than: lexicographic by code point, a proper prefix
is smaller. -/
def strLt : List Char → List Char → Bool
  | [], [] => false
  | [], _ :: _ => true
  | _ :: _, [] => false
  | a :: as, b :: bs =>
      if a < b then true else if b < a then false else strLt as bs

/-- Comparison of key elements. Python would raise a TypeError on a mixed
comparison; the mixed cases can never be reached because the keys produced
by natural_sort_key alternate text and number by position, so the value
chosen for them is arbitrary. -/
def elemLt : KeyElem → KeyElem → Bool
  | KeyElem.num m, KeyElem.num n => m < n
  | KeyElem.txt s, KeyElem.txt t => strLt s t
  | KeyElem.num _, KeyElem.txt _ => true
  | KeyElem.txt _, KeyElem.num _ => false

/-- Lexicographic comparison of whole keys, as Python compares lists. -/
def keyLt : List KeyElem → List KeyElem → Bool
  | [], [] => false
  | [], _ :: _ => true
  | _ :: _, [] => false
  | a :: as, b :: bs =>
      if elemLt a b then true else if elemLt b a then false else keyLt as bs

/-- Stable insertion used by the sort: an element goes before the first
position whose key is not smaller, so elements with equal keys keep their
input order, as Python sorted guarantees. -/
def insertSorted (key : α → List KeyElem) (x : α) : List α → List α
  | [] => [x]
  | y :: ys =>
      if keyLt (key y) (key x) then y :: insertSorted key x ys
      else x :: y :: ys

/-- Stable sort by a natural sort key, modelling Python sorted with key. -/
def pysort (key : α → List KeyElem) (l : List α) : List α :=
  l.foldr (insertSorted key) []

/-! ## Naming transformer: to_chinese_num and convert_folder_name -/

/-- The fixed numeral table chinese_nums of the source. -/
def chinese_nums : List String :=
  ["零", "一", "二", "三", "四", "五", "六", "七", "八", "九", "十"]

/-- Translation of to_chinese_num from the source: numbers up to 10 use
the fixed table, numbers below 20 use the compound ten form, larger
numbers fall back to decimal digits; a separator follows in every case. -/
def to_chinese_num (num : ℕ) : String :=
  if num ≤ 10 then (chinese_nums.getD num "") ++ "、"
  else if num < 20 then "十" ++ (chinese_nums.getD (num - 10) "") ++ "、"
  else (Nat.repr num) ++ "、"

/-- Result of matching the regular expression of convert_folder_name
against a name: a maximal nonempty leading digit run, a literal dot, and
the rest of the line. The match is a prefix match and the dot-star group
stops at a newline, as in Python re.match. -/
def pyMatchNumDot (s : List Char) : Option (ℕ × List Char) :=
  match s.span Char.isDigit with
  | (digits, rest) =>
    match digits, rest with
    | [], _ => none
    | _ :: _, '.' :: rest2 => some (digitsToNat digits, rest2.takeWhile (fun c => c ≠ '\n'))
    | _ :: _, _ => none

/-- Translation of convert_folder_name from the source: when the name
matches the number-dot pattern and the level is 1 the numeral form plus
the stripped remainder is returned; otherwise the name is unchanged. -/
def convert_folder_name (folder_name : String) (level : ℕ) : String :=
  match pyMatchNumDot folder_name.toList with
  | some (num, rest) =>
      if level = 1 then to_chinese_num num ++ String.mk (pyStrip rest)
      else folder_name
  | none => folder_name

/-- Numeral builder following the wording of the specification: a fixed
table entry for 0 to 10, the compound ten form for 11 to 19, the decimal
digits for 20 and beyond, each followed by the separator. Stated
separately from to_chinese_num so the theorem for the naming claim
compares the source translation against the wording of the claim. -/
def chineseNumeralSpec (n : ℕ) : String :=
  if n ≤ 10 then (chinese_nums.getD n "") ++ "、"
  else if 11 ≤ n ∧ n ≤ 19 then "十" ++ (chinese_nums.getD (n - 10) "") ++ "、"
  else (Nat.repr n) ++ "、"

/-! ## Layout engine

Translation of the arithmetic of create_document and add_headings. The
constants are the fixed page geometry of the source; the computation is
carried out in exact rational arithmetic. -/

/-- Page width in centimeters, A4. -/
def page_width : ℚ := 21

/-- Page height in centimeters, A4. -/
def page_height : ℚ := 29.7

/-- Uniform page margin in centimeters. -/
def margin : ℚ := 1.27

/-- Usable width in inches: width minus both margins, divided by 2.54. -/
def available_width_in : ℚ := (page_width - 2 * margin) / 2.54

/-- Usable height in inches: height minus both margins, divided by 2.54. -/
def available_height_in : ℚ := (page_height - 2 * margin) / 2.54

/-- Title allowance in inches: a 10.5 point line at 1.5 line spacing. -/
def title_height_in : ℚ := (10.5 / 72) * 1.5

/-- Safety scale factor applied to both final dimensions. -/
def scale_factor : ℚ := 0.9

/-- Image layout from add_headings: fit to the usable width first; if the
resulting height plus the title allowance exceeds the usable height, refit
to the usable height minus the title allowance, clamping back to the
usable width if that refit width exceeds it; finally scale both dimensions
by the safety factor. Pixel dimensions are the positive integers read from
the image file. -/
def computeLayout (img_width img_height : ℕ) : ℚ × ℚ :=
  let aspect : ℚ := (img_width : ℚ) / (img_height : ℚ)
  let w0 : ℚ := available_width_in
  let h0 : ℚ := w0 / aspect
  let total_height : ℚ := h0 + title_height_in
  let fitted : ℚ × ℚ :=
    if available_height_in < total_height then
      let h1 : ℚ := available_height_in - title_height_in
      let w1 : ℚ := h1 * aspect
      if available_width_in < w1 then
        (available_width_in, available_width_in / aspect)
      else (w1, h1)
    else (w0, h0)
  (fitted.1 * scale_factor, fitted.2 * scale_factor)

/-! ## Filesystem model and the walker collect_files -/

/-- A filesystem entry: a plain file or a directory with children. The
children list is in the order the operating system would yield them. -/
inductive FSEntry where
  | file (name : String) : FSEntry
  | dir (name : String) (children : List FSEntry) : FSEntry

/-- Name of an entry. -/
def entryName : FSEntry → String
  | FSEntry.file n => n
  | FSEntry.dir n _ => n

/-- Whether an entry is a plain file. -/
def isFileEntry : FSEntry → Bool
  | FSEntry.file _ => true
  | FSEntry.dir _ _ => false

/-- One node of the structure built by collect_files: the tuple of folder
name, qualifying file names, and child nodes, exactly the triples the
source appends to its structure list. -/
inductive FolderNode where
  | mk (name : String) (files : List String) (subs : List FolderNode) : FolderNode

/-- Folder name of a node. -/
def FolderNode.name : FolderNode → String
  | FolderNode.mk n _ _ => n

/-- Qualifying files of a node. -/
def FolderNode.files : FolderNode → List String
  | FolderNode.mk _ f _ => f

/-- Child nodes of a node. -/
def FolderNode.subs : FolderNode → List FolderNode
  | FolderNode.mk _ _ s => s

/-- Key of an entry for the natural sort used by the walker. -/
def entryKey (e : FSEntry) : List KeyElem := natural_sort_key (entryName e).toList

mutual

/-- Size of a filesystem entry, used as recursion fuel: it strictly
exceeds the nesting depth below the entry. -/
def entrySize : FSEntry → ℕ
  | FSEntry.file _ => 1
  | FSEntry.dir _ children => 1 + entriesSize children

/-- Size of a list of filesystem entries. -/
def entriesSize : List FSEntry → ℕ
  | [] => 1
  | e :: rest => 1 + entrySize e + entriesSize rest

end

mutual

/-- Size of a folder node, used as recursion fuel for traversals of the
collected structure. -/
def nodeSize : FolderNode → ℕ
  | FolderNode.mk _ _ subs => 1 + forestSize subs

/-- Size of a list of folder nodes. -/
def forestSize : List FolderNode → ℕ
  | [] => 1
  | n :: rest => 1 + nodeSize n + forestSize rest

end

/-- The qualifying file names of a directory, in natural sort order. The
source filters sorted children by suffix only, so a subdirectory whose
name carries an image suffix is listed here too, exactly as in the code. -/
def qualifyingFiles (children : List FSEntry) : List String :=
  (pysort entryKey children).filterMap
    (fun c => if qualifies (entryName c) then some (entryName c) else none)

/-- Fuel based translation of collect_files: iterate the sorted children,
recurse into each directory, collect its qualifying files, and keep the
node only when it has subfolders or files. The fuel bounds the recursion
depth and is consumed once per directory level. -/
def collectListF : ℕ → List FSEntry → ℕ → List FolderNode
  | 0, _, _ => []
  | fuel + 1, entries, level =>
    (pysort entryKey entries).filterMap
      (fun e =>
        match e with
        | FSEntry.file _ => none
        | FSEntry.dir name children =>
            let subs := collectListF fuel children (level + 1)
            let files := qualifyingFiles children
            if subs.isEmpty && files.isEmpty then none
            else some (FolderNode.mk name files subs))

/-- The walker collect_files on the children of the root, with enough
fuel that the recursion never truncates. -/
def collect_files (entries : List FSEntry) (level : ℕ) : List FolderNode :=
  collectListF (entriesSize entries) entries level

/-- Outcome of the structure check in generate_doc: an empty structure
aborts with the no valid content error before any document is assembled. -/
inductive GenResult where
  | noValidContent : GenResult
  | proceed (structure' : List FolderNode) : GenResult

/-- The fragment of generate_doc that decides whether generation aborts:
collect the structure from the selected root and fail when it is empty. -/
def generate_doc_structure (entries : List FSEntry) : GenResult :=
  let s := collect_files entries 1
  if s.isEmpty then GenResult.noValidContent else GenResult.proceed s

/-- Bounded check that a node or one of its descendants has at least one
qualifying file; the fuel bounds the descent. -/
def subtreeHasImageF : ℕ → FolderNode → Bool
  | 0, _ => false
  | fuel + 1, FolderNode.mk _ files subs =>
      !files.isEmpty || subs.any (subtreeHasImageF fuel)

/-- Bounded check that every node of a forest, hereditarily, has a
qualifying file in its subtree. -/
def goodForestF : ℕ → List FolderNode → Bool
  | 0, forest => forest.isEmpty
  | fuel + 1, forest =>
      forest.all (fun n => subtreeHasImageF (fuel + 1) n && goodForestF fuel n.subs)

/-! ## Renaming utility: one folder pass of rename_images

The source renames the qualifying images of a folder to their 1-based
position in natural sort order, with the suffix lowercased, submitting
each rename to a thread pool after checking that the target name differs
from the source name and does not currently exist. The model below is the
sequential linearization of a single pass over one folder: renames take
effect immediately, in the order they are submitted, so each existence
check sees the folder contents produced by the previous steps. -/

/-- Target name computed by the source for the image at 1-based position
i: the decimal position followed by the lowercased suffix of the image. -/
def renameTarget (i : ℕ) (image : String) : String :=
  Nat.repr i ++ lowerSuffix image

/-- Result of a rename pass: final folder contents, performed renames in
order, skipped renames in order. -/
structure RenameOutcome where
  final : List String
  performed : List (String × String)
  skipped : List (String × String)
deriving DecidableEq

/-- Process the sorted images starting at position i against the current
folder contents st: a rename happens when the target differs from the
image name and is not currently present, removing the old name and adding
the new one; otherwise the step is skipped, silently, with no status
message in the source. -/
def runRenameFrom : ℕ → List String → List String → RenameOutcome
  | _, [], st => RenameOutcome.mk st [] []
  | i, image :: rest, st =>
      let new := renameTarget i image
      if image ≠ new ∧ new ∉ st then
        let out := runRenameFrom (i + 1) rest ((st.erase image).concat new)
        RenameOutcome.mk out.final ((image, new) :: out.performed) out.skipped
      else
        let out := runRenameFrom (i + 1) rest st
        RenameOutcome.mk out.final out.performed ((image, new) :: out.skipped)

/-- Qualifying images of a folder in natural sort order, as the source
builds them from the folder listing. -/
def sortedImages (entries : List String) : List String :=
  pysort (fun s => natural_sort_key s.toList) (entries.filter qualifies)

/-- One pass of rename_images over a single folder whose contents are the
given entry names, in the sequential linearization described above. -/
def rename_images_pass (entries : List String) : RenameOutcome :=
  runRenameFrom 1 (sortedImages entries) entries

/-! ## Document assembler: add_headings as a block emitter

The assembler walks the collected structure emitting a heading per node,
an image block per readable image, and a page break before the children
of a node when the level is greater than 1 and the first-secondary flag
is false. The flag passed to the children is whether the parent level is
1; the source never varies it between siblings. Image dimensions are
supplied by an oracle, returning none for unreadable images, which the
source skips. -/

/-- One block of the assembled document. -/
inductive Block where
  | heading (level : ℕ) (text : String) : Block
  | image (name : String) (w h : ℚ) : Block
  | pageBreak : Block
deriving DecidableEq

/-- Image blocks for the files of one node: unreadable images are skipped,
readable ones are emitted with the computed layout. -/
def imageBlocks (dims : String → Option (ℕ × ℕ)) (files : List String) : List Block :=
  files.filterMap (fun f =>
    match dims f with
    | none => none
    | some wh => some (Block.image f (computeLayout wh.1 wh.2).1 (computeLayout wh.1 wh.2).2))

/-- Fuel based translation of add_headings: for each node emit the heading
with the converted name, then the image blocks, then, when the node has
children, a page break if the level exceeds 1 and the flag is false,
followed by the emission of the children at the next level with the flag
set to whether the current level is 1. -/
def emitForestF (dims : String → Option (ℕ × ℕ)) : ℕ → List FolderNode → ℕ → Bool → List Block
  | 0, _, _, _ => []
  | fuel + 1, forest, level, flag =>
      forest.foldr (fun n acc =>
        Block.heading level (convert_folder_name n.name level)
          :: (imageBlocks dims n.files
            ++ (if n.subs.isEmpty then []
                else (if 1 < level ∧ flag = false then [Block.pageBreak] else [])
                  ++ emitForestF dims fuel n.subs (level + 1) (level = 1))
            ++ acc)) []

/-- Top level emission, as add_headings is called in create_document: the
structure at level 1 with the flag false. -/
def emitBlocks (dims : String → Option (ℕ × ℕ)) (s : List FolderNode) : List Block :=
  emitForestF dims (forestSize s) s 1 false

/-- Number of page breaks in a block list. -/
def countPB : List Block → ℕ
  | [] => 0
  | Block.pageBreak :: rest => countPB rest + 1
  | _ :: rest => countPB rest

/-- Number of nodes at depth at least 3 that have children, the positions
where the assembler actually inserts page breaks; the level argument is
the depth of the forest roots. -/
def deepBranchCountF : ℕ → List FolderNode → ℕ → ℕ
  | 0, _, _ => 0
  | fuel + 1, forest, level =>
      forest.foldr (fun n acc =>
        (if !n.subs.isEmpty ∧ 3 ≤ level then 1 else 0)
          + deepBranchCountF fuel n.subs (level + 1) + acc) 0

/-- Top level count of deep branching nodes for a structure rooted at
depth 1. -/
def deepBranchCount (s : List FolderNode) : ℕ :=
  deepBranchCountF (forestSize s) s 1

/-! ## Saving the document: the tail of create_document

The source probes an existing output file by opening it in append mode,
which raises exactly when another process holds the file locked, shows a
dedicated close-the-file warning, and returns failure without having
touched the file; otherwise the document is saved over the path. The
operating system lock is modelled as a boolean on the abstract file
state. -/

/-- State of the output path: current content if the file exists, and
whether another process holds it locked. -/
structure OutFileState where
  content : Option ℕ
  locked : Bool
deriving DecidableEq

/-- User visible outcome of the save step. -/
inductive SaveMessage where
  | success : SaveMessage
  | closeFileWarning : SaveMessage
  | genericError : SaveMessage
deriving DecidableEq

/-- Result of the save step: returned flag, resulting file state, message
shown to the user. -/
structure SaveResult where
  ok : Bool
  state : OutFileState
  msg : SaveMessage
deriving DecidableEq

/-- Translation of the save tail of create_document: when the file exists
and is locked the append probe raises, the handler shows the dedicated
warning and returns false leaving the file untouched; otherwise the
document is written and success is reported. -/
def save_document (st : OutFileState) (doc : ℕ) : SaveResult :=
  if st.content.isSome ∧ st.locked then
    SaveResult.mk false st SaveMessage.closeFileWarning
  else
    SaveResult.mk true (OutFileState.mk (some doc) st.locked) SaveMessage.success

/-! ## Concrete inputs used by counterexamples and witnesses -/

/-- Dimension oracle used in concrete emissions: every image is 100 by
100 pixels. -/
def exDims : String → Option (ℕ × ℕ) := fun _ => some (100, 100)

/-- Structure with one top level section holding two depth 2 sub-sections,
each with one image: the shape used to test the page break rule. -/
def exStructC2 : List FolderNode :=
  [FolderNode.mk "1.A" []
    [FolderNode.mk "1.B" ["1.jpg"] [],
     FolderNode.mk "2.C" ["1.jpg"] []]]

/-- Levels and flags reachable by the assembler from the top call: the
root call at level 1, the call for children of a root at level 2 with the
flag set, and every deeper call with the flag cleared. -/
def reachableCall (level : ℕ) (flag : Bool) : Prop :=
  level = 1 ∨ (level = 2 ∧ flag = true) ∨ (3 ≤ level ∧ flag = false)

/-! # Theorems

Helper lemmas first, then one theorem per claim, each preceded by a doc
comment naming the claim. -/

/-! ## Layout lemmas -/

/-- The usable height minus the title allowance is positive under the
fixed page constants. -/
lemma title_lt_available_height : title_height_in < available_height_in := by
  norm_num [title_height_in, available_height_in, page_height, margin]

/-- Core bound behind the refit branch: if the width-first height plus the
title allowance exceeds the usable height, then the height-first width is
strictly below the usable width. -/
lemma refit_width_lt (r : ℚ) (hr : 0 < r)
    (hcond : available_height_in < available_width_in / r + title_height_in) :
    (available_height_in - title_height_in) * r < available_width_in := by
  have h1 : available_height_in - title_height_in < available_width_in / r := by
    linarith
  calc (available_height_in - title_height_in) * r
      < (available_width_in / r) * r := by
        exact mul_lt_mul_of_pos_right h1 hr
    _ = available_width_in := by
        field_simp

/-- The aspect ratio of a positive pixel pair is positive. -/
lemma aspect_pos (w h : ℕ) (hw : 0 < w) (hh : 0 < h) :
    0 < (w : ℚ) / (h : ℚ) := by
  have hw' : (0 : ℚ) < (w : ℚ) := by exact_mod_cast hw
  have hh' : (0 : ℚ) < (h : ℚ) := by exact_mod_cast hh
  positivity

/-- Branch characterization of the layout computation for positive pixel
dimensions: the width-first branch is kept verbatim when its height fits,
and otherwise the height-first refit is returned unclamped, its width
being strictly below the usable width. -/
lemma computeLayout_cases (w h : ℕ) (hw : 0 < w) (hh : 0 < h) :
    (¬ available_height_in < available_width_in / ((w : ℚ) / h) + title_height_in →
      computeLayout w h =
        (available_width_in * scale_factor,
         (available_width_in / ((w : ℚ) / h)) * scale_factor)) ∧
    (available_height_in < available_width_in / ((w : ℚ) / h) + title_height_in →
      computeLayout w h =
        ((available_height_in - title_height_in) * ((w : ℚ) / h) * scale_factor,
         (available_height_in - title_height_in) * scale_factor) ∧
      (available_height_in - title_height_in) * ((w : ℚ) / h) < available_width_in) := by
  have hr := aspect_pos w h hw hh
  constructor
  · intro hnot
    simp only [computeLayout]
    rw [if_neg hnot]
  · intro hcond
    have hlt := refit_width_lt ((w : ℚ) / h) hr hcond
    refine ⟨?_, hlt⟩
    simp only [computeLayout]
    rw [if_pos hcond, if_neg (not_lt.mpr (le_of_lt hlt))]

/-- The usable width is positive under the fixed page constants. -/
lemma available_width_pos : (0 : ℚ) < available_width_in := by
  norm_num [available_width_in, page_width, margin]

/-- C1: for every image with positive pixel width and height the layout
computation first fits the usable width, keeps that fit when its height
plus the title allowance does not exceed the usable height, otherwise
refits height-first to the usable height minus the title allowance, and
scales the surviving pair by the safety factor 0.9; whenever the
height-first refit is taken its width never exceeds the usable width, so
no further shrink happens. -/
theorem claim_C1_layout_order (w h : ℕ) (hw : 0 < w) (hh : 0 < h) :
    (¬ available_height_in < available_width_in / ((w : ℚ) / h) + title_height_in →
      computeLayout w h =
        (available_width_in * scale_factor,
         (available_width_in / ((w : ℚ) / h)) * scale_factor)) ∧
    (available_height_in < available_width_in / ((w : ℚ) / h) + title_height_in →
      computeLayout w h =
        ((available_height_in - title_height_in) * ((w : ℚ) / h) * scale_factor,
         (available_height_in - title_height_in) * scale_factor) ∧
      (available_height_in - title_height_in) * ((w : ℚ) / h) ≤ available_width_in) := by
  obtain ⟨h1, h2⟩ := computeLayout_cases w h hw hh
  exact ⟨h1, fun hc => ⟨(h2 hc).1, le_of_lt (h2 hc).2⟩⟩

/-- Witness for C1 at the concrete tall image 1 by 5, which takes the
height-first refit. -/
theorem claim_C1_layout_order_witness :
    computeLayout 1 5 =
      ((available_height_in - title_height_in) * ((1 : ℚ) / 5) * scale_factor,
       (available_height_in - title_height_in) * scale_factor) ∧
    (available_height_in - title_height_in) * ((1 : ℚ) / 5) ≤ available_width_in := by
  have h := (claim_C1_layout_order 1 5 (by norm_num) (by norm_num)).2
    (by norm_num [available_height_in, available_width_in, title_height_in,
      page_height, page_width, margin])
  exact_mod_cast h

/-- C7: the layout preserves the aspect ratio exactly in the rational
model, in every branch: the ratio of output width to output height equals
the input pixel ratio, and the output height is nonzero. -/
theorem claim_C7_aspect_preserved (w h : ℕ) (hw : 0 < w) (hh : 0 < h) :
    (computeLayout w h).2 ≠ 0 ∧
    (computeLayout w h).1 / (computeLayout w h).2 = (w : ℚ) / h := by
  have hr := aspect_pos w h hw hh
  have hW := available_width_pos
  have hHT : (0 : ℚ) < available_height_in - title_height_in := by
    linarith [title_lt_available_height]
  have hs : (0 : ℚ) < scale_factor := by norm_num [scale_factor]
  have hr' : ((w : ℚ) / h) ≠ 0 := ne_of_gt hr
  simp only [computeLayout]
  split_ifs with h1 h2
  · refine ⟨?_, ?_⟩
    · have : (0 : ℚ) < (available_width_in / ((w : ℚ) / h)) * scale_factor := by
        positivity
      exact ne_of_gt this
    · field_simp
      ring
  · refine ⟨?_, ?_⟩
    · have : (0 : ℚ) < (available_height_in - title_height_in) * scale_factor := by
        positivity
      exact ne_of_gt this
    · field_simp
      ring
  · refine ⟨?_, ?_⟩
    · have : (0 : ℚ) < (available_width_in / ((w : ℚ) / h)) * scale_factor := by
        positivity
      exact ne_of_gt this
    · field_simp
      ring

/-- Witness for C7 at the concrete image 3 by 4. -/
theorem claim_C7_aspect_preserved_witness :
    (computeLayout 3 4).2 ≠ 0 ∧
    (computeLayout 3 4).1 / (computeLayout 3 4).2 = (3 : ℚ) / 4 := by
  have h := claim_C7_aspect_preserved 3 4 (by norm_num) (by norm_num)
  exact_mod_cast h

/-- C10: whenever the refit branch fires for positive pixel dimensions,
the recomputed width is already strictly below the usable width, so the
inner clamp branch is unreachable and the output is exactly the scaled
height-first pair. -/
theorem claim_C10_clamp_unreachable (w h : ℕ) (hw : 0 < w) (hh : 0 < h)
    (hcond : available_height_in < available_width_in / ((w : ℚ) / h) + title_height_in) :
    (available_height_in - title_height_in) * ((w : ℚ) / h) < available_width_in ∧
    computeLayout w h =
      ((available_height_in - title_height_in) * ((w : ℚ) / h) * scale_factor,
       (available_height_in - title_height_in) * scale_factor) := by
  obtain ⟨-, h2⟩ := computeLayout_cases w h hw hh
  exact ⟨(h2 hcond).2, (h2 hcond).1⟩

/-- Witness for C10 at the concrete tall image 1 by 6. -/
theorem claim_C10_clamp_unreachable_witness :
    (available_height_in - title_height_in) * ((1 : ℚ) / 6) < available_width_in ∧
    computeLayout 1 6 =
      ((available_height_in - title_height_in) * ((1 : ℚ) / 6) * scale_factor,
       (available_height_in - title_height_in) * scale_factor) := by
  have h := claim_C10_clamp_unreachable 1 6 (by norm_num) (by norm_num)
    (by norm_num [available_height_in, available_width_in, title_height_in,
      page_height, page_width, margin])
  exact_mod_cast h

/-! ## Naming transformer -/

/-- The source numeral function agrees with the case split used by the
specification wording: fixed table up to 10, compound ten form for 11 to
19, decimal fallback from 20 on. -/
lemma to_chinese_num_eq_spec (n : ℕ) : to_chinese_num n = chineseNumeralSpec n := by
  unfold to_chinese_num chineseNumeralSpec
  split_ifs <;> first | rfl | omega

/-- C3: the naming transformer is a pure total function of name and
depth; when the name matches the number-dot pattern and the depth is 1 it
returns the numeral of the claimed case split followed by the separator
and the stripped remainder; at any other depth, or when the pattern does
not match, the name is returned unchanged. -/
theorem claim_C3_naming (name : String) (level : ℕ) :
    (∀ n rest, pyMatchNumDot name.toList = some (n, rest) → level = 1 →
      convert_folder_name name level = chineseNumeralSpec n ++ String.mk (pyStrip rest)) ∧
    (level ≠ 1 → convert_folder_name name level = name) ∧
    (pyMatchNumDot name.toList = none → convert_folder_name name level = name) := by
  refine ⟨?_, ?_, ?_⟩
  · intro n rest hm hl
    subst hl
    simp only [convert_folder_name, hm, if_pos]
    rw [to_chinese_num_eq_spec]
  · intro hne
    simp only [convert_folder_name]
    cases hm : pyMatchNumDot name.toList with
    | none => rfl
    | some p =>
        cases p with
        | mk n rest => simp [hne]
  · intro hm
    unfold convert_folder_name
    rw [hm]

/-- Witness for C3 at the concrete name built from 12 and a remainder
with surrounding spaces, at depth 1. -/
theorem claim_C3_naming_witness :
    pyMatchNumDot ("12. ab ".toList) = some (12, " ab ".toList) ∧
    convert_folder_name "12. ab " 1 =
      chineseNumeralSpec 12 ++ String.mk (pyStrip (" ab ".toList)) ∧
    chineseNumeralSpec 12 ++ String.mk (pyStrip (" ab ".toList)) = "十二、ab" := by
  refine ⟨by decide, ?_, by decide⟩
  exact (claim_C3_naming "12. ab " 1).1 12 (" ab ".toList) (by decide) rfl

/-! ## Sorting membership lemmas -/

/-- Membership in a stable insertion. -/
lemma mem_insertSorted (key : α → List KeyElem) (x a : α) (l : List α) :
    a ∈ insertSorted key x l ↔ a = x ∨ a ∈ l := by
  induction l with
  | nil => simp [insertSorted]
  | cons y ys ih =>
      simp only [insertSorted]
      split_ifs with h
      · rw [List.mem_cons, ih, List.mem_cons]
        tauto
      · exact List.mem_cons

/-- The sort does not change membership. -/
lemma mem_pysort (key : α → List KeyElem) (l : List α) (a : α) :
    a ∈ pysort key l ↔ a ∈ l := by
  induction l with
  | nil => simp [pysort]
  | cons y ys ih =>
      rw [show pysort key (y :: ys) = insertSorted key y (pysort key ys) from rfl,
        mem_insertSorted]
      simp [ih]

/-! ## Walker invariant -/

/-- A forest passing the hereditary check certifies the subtree check for
each of its members, at the same fuel. -/
lemma goodForest_mem {fuel : ℕ} {forest : List FolderNode} {k : FolderNode}
    (hg : goodForestF fuel forest = true) (hk : k ∈ forest) :
    subtreeHasImageF fuel k = true := by
  cases fuel with
  | zero =>
      simp only [goodForestF, List.isEmpty_eq_true] at hg
      subst hg
      cases hk
  | succ f =>
      simp only [goodForestF, List.all_eq_true] at hg
      have h2 := hg k hk
      rw [Bool.and_eq_true] at h2
      exact h2.1

/-- Every forest produced by the fueled walker passes the hereditary
subtree check at the same fuel: each collected node has a qualifying file
in itself or below, and so do all of its descendants. -/
lemma collect_good : ∀ fuel (entries : List FSEntry) (level : ℕ),
    goodForestF fuel (collectListF fuel entries level) = true := by
  intro fuel
  induction fuel with
  | zero => intro entries level; rfl
  | succ f ih =>
      intro entries level
      simp only [collectListF, goodForestF, List.all_eq_true]
      intro n hn
      rw [List.mem_filterMap] at hn
      obtain ⟨e, _, hfe⟩ := hn
      cases e with
      | file nm => simp at hfe
      | dir nm children =>
          simp only at hfe
          by_cases hc : ((collectListF f children (level + 1)).isEmpty
              && (qualifyingFiles children).isEmpty) = true
          · rw [if_pos hc] at hfe
            cases hfe
          · rw [if_neg hc] at hfe
            obtain rfl := Option.some.inj hfe
            rw [Bool.and_eq_true]
            refine ⟨?_, ih children (level + 1)⟩
            simp only [subtreeHasImageF, FolderNode.subs, Bool.or_eq_true]
            by_cases hfiles : (qualifyingFiles children).isEmpty = true
            · right
              have hsubs : (collectListF f children (level + 1)).isEmpty = false := by
                cases hs : (collectListF f children (level + 1)).isEmpty
                · rfl
                · exact absurd (by rw [hs, hfiles]; rfl) hc
              obtain ⟨k, ks, hks⟩ : ∃ k ks, collectListF f children (level + 1) = k :: ks := by
                rcases hl : collectListF f children (level + 1) with _ | ⟨k, ks⟩
                · rw [hl] at hsubs
                  cases hsubs
                · exact ⟨k, ks, rfl⟩
              have hgood := ih children (level + 1)
              rw [hks] at hgood
              rw [hks, List.any_eq_true]
              exact ⟨k, List.mem_cons_self k ks, goodForest_mem hgood (List.mem_cons_self k ks)⟩
            · left
              simp only [Bool.not_eq_true] at hfiles
              rw [hfiles]
              rfl

/-- C4: every node present in the structure produced by the walker,
including every descendant node, contains at least one qualifying entry in
itself or in some descendant; the hereditary boolean check certifies this
for the whole collected forest. -/
theorem claim_C4_nodes_have_images (entries : List FSEntry) (level : ℕ) :
    goodForestF (entriesSize entries) (collect_files entries level) = true :=
  collect_good (entriesSize entries) entries level

/-- Nodes produced by the fueled walker always come from directory
entries of the listing. -/
lemma collect_node_from_dir : ∀ fuel (entries : List FSEntry) (level : ℕ) (n : FolderNode),
    n ∈ collectListF fuel entries level →
    ∃ children, FSEntry.dir n.name children ∈ entries := by
  intro fuel
  cases fuel with
  | zero =>
      intro entries level n hn
      cases hn
  | succ f =>
      intro entries level n hn
      simp only [collectListF] at hn
      rw [List.mem_filterMap] at hn
      obtain ⟨e, he, hfe⟩ := hn
      cases e with
      | file nm => simp at hfe
      | dir nm children =>
          simp only at hfe
          by_cases hc : ((collectListF f children (level + 1)).isEmpty
              && (qualifyingFiles children).isEmpty) = true
          · rw [if_pos hc] at hfe
            cases hfe
          · rw [if_neg hc] at hfe
            obtain rfl := Option.some.inj hfe
            exact ⟨children, (mem_pysort entryKey entries _).mp he⟩

/-- When every root entry is a plain file the fueled walker returns the
empty structure, at any fuel. -/
lemma collect_all_files_nil (entries : List FSEntry)
    (h : ∀ e ∈ entries, isFileEntry e = true) :
    ∀ fuel level, collectListF fuel entries level = [] := by
  intro fuel level
  cases fuel with
  | zero => rfl
  | succ f =>
      simp only [collectListF]
      rw [List.filterMap_eq_nil_iff]
      intro e he
      have he' := h e ((mem_pysort entryKey entries e).mp he)
      cases e with
      | file nm => rfl
      | dir nm children => simp [isFileEntry] at he'

/-- C9: images lying directly in the selected root never enter the
collected structure: every collected root node stems from a directory
entry, and when the root contains only plain files the structure is empty
and generation aborts with the no valid content error. -/
theorem claim_C9_root_images_ignored (entries : List FSEntry) :
    (∀ n ∈ collect_files entries 1, ∃ children, FSEntry.dir n.name children ∈ entries) ∧
    ((∀ e ∈ entries, isFileEntry e = true) →
      collect_files entries 1 = [] ∧
      generate_doc_structure entries = GenResult.noValidContent) := by
  constructor
  · intro n hn
    exact collect_node_from_dir (entriesSize entries) entries 1 n hn
  · intro h
    have hnil : collect_files entries 1 = [] :=
      collect_all_files_nil entries h (entriesSize entries) 1
    refine ⟨hnil, ?_⟩
    simp [generate_doc_structure, hnil]

/-- Witness for C9: a root holding a single qualifying image file at top
level yields the empty structure and the abort outcome. -/
theorem claim_C9_root_images_ignored_witness :
    collect_files [FSEntry.file "1.jpg"] 1 = [] ∧
    generate_doc_structure [FSEntry.file "1.jpg"] = GenResult.noValidContent :=
  (claim_C9_root_images_ignored [FSEntry.file "1.jpg"]).2
    (by intro e he; simp only [List.mem_singleton] at he; rw [he]; rfl)

/-! ## Document assembler: page break placement -/

/-- Page break count distributes over concatenation. -/
lemma countPB_append : ∀ a b : List Block, countPB (a ++ b) = countPB a + countPB b := by
  intro a b
  induction a with
  | nil => simp [countPB]
  | cons x xs ih =>
      cases x
      all_goals simp [countPB, ih]
      all_goals omega

/-- Image blocks contain no page break. -/
lemma countPB_imageBlocks (dims : String → Option (ℕ × ℕ)) (files : List String) :
    countPB (imageBlocks dims files) = 0 := by
  induction files with
  | nil => rfl
  | cons f fs ih =>
      cases h : dims f <;> simp [imageBlocks, List.filterMap_cons, h, countPB] <;>
        simpa [imageBlocks] using ih

/-- Unfolding of the emitter at a cons cell. -/
lemma emitForestF_cons (dims : String → Option (ℕ × ℕ)) (f : ℕ) (n : FolderNode)
    (rest : List FolderNode) (level : ℕ) (flag : Bool) :
    emitForestF dims (f + 1) (n :: rest) level flag =
      Block.heading level (convert_folder_name n.name level)
        :: (imageBlocks dims n.files
          ++ (if n.subs.isEmpty then []
              else (if 1 < level ∧ flag = false then [Block.pageBreak] else [])
                ++ emitForestF dims f n.subs (level + 1) (decide (level = 1)))
          ++ emitForestF dims (f + 1) rest level flag) := rfl

/-- Unfolding of the deep branching counter at a cons cell. -/
lemma deepBranchCountF_cons (f : ℕ) (n : FolderNode) (rest : List FolderNode) (level : ℕ) :
    deepBranchCountF (f + 1) (n :: rest) level =
      (if !n.subs.isEmpty ∧ 3 ≤ level then 1 else 0)
        + deepBranchCountF f n.subs (level + 1)
        + deepBranchCountF (f + 1) rest level := rfl

/-- The deep branching counter of the empty forest is zero at any fuel. -/
lemma deepBranchCountF_nil (f level : ℕ) : deepBranchCountF f [] level = 0 := by
  cases f <;> rfl

/-- Recursion preserves reachability. -/
lemma reachableCall_step (level : ℕ) (flag : Bool) (h : reachableCall level flag) :
    reachableCall (level + 1) (decide (level = 1)) := by
  rcases h with h | ⟨h, _⟩ | ⟨h, _⟩
  · subst h
    right; left
    exact ⟨rfl, by decide⟩
  · subst h
    right; right
    exact ⟨by omega, by decide⟩
  · right; right
    constructor
    · omega
    · have : ¬ level = 1 := by omega
      simp [this]

/-- Page break count of an emission from a reachable call equals the
number of nodes of depth at least 3 with children. -/
lemma emit_countPB (dims : String → Option (ℕ × ℕ)) :
    ∀ fuel (forest : List FolderNode) (level : ℕ) (flag : Bool),
    reachableCall level flag →
    countPB (emitForestF dims fuel forest level flag) = deepBranchCountF fuel forest level := by
  intro fuel
  induction fuel with
  | zero => intro forest level flag _; rfl
  | succ f ih =>
      intro forest level flag h
      induction forest with
      | nil => rfl
      | cons n rest ihf =>
          rw [emitForestF_cons, deepBranchCountF_cons]
          have hhead : countPB
              (Block.heading level (convert_folder_name n.name level) :: (imageBlocks dims n.files
                ++ (if n.subs.isEmpty then []
                    else (if 1 < level ∧ flag = false then [Block.pageBreak] else [])
                      ++ emitForestF dims f n.subs (level + 1) (decide (level = 1)))
                ++ emitForestF dims (f + 1) rest level flag)) =
              countPB (imageBlocks dims n.files)
                + countPB (if n.subs.isEmpty then []
                    else (if 1 < level ∧ flag = false then [Block.pageBreak] else [])
                      ++ emitForestF dims f n.subs (level + 1) (decide (level = 1)))
                + countPB (emitForestF dims (f + 1) rest level flag) := by
            simp [countPB, countPB_append, Nat.add_assoc]
          rw [hhead, countPB_imageBlocks, ihf]
          have hmid : countPB (if n.subs.isEmpty then []
              else (if 1 < level ∧ flag = false then [Block.pageBreak] else [])
                ++ emitForestF dims f n.subs (level + 1) (decide (level = 1))) =
              (if !n.subs.isEmpty ∧ 3 ≤ level then 1 else 0)
                + deepBranchCountF f n.subs (level + 1) := by
            by_cases hempty : n.subs.isEmpty
            · rw [if_pos hempty]
              have hnil : n.subs = [] := List.isEmpty_eq_true.mp hempty
              rw [hnil, deepBranchCountF_nil]
              simp [countPB, hnil]
            · rw [if_neg hempty, countPB_append,
                ih n.subs (level + 1) (decide (level = 1)) (reachableCall_step level flag h)]
              have hfalse : n.subs.isEmpty = false := Bool.eq_false_iff.mpr hempty
              have hbreak : countPB (if 1 < level ∧ flag = false then [Block.pageBreak] else [])
                  = (if !n.subs.isEmpty ∧ 3 ≤ level then 1 else 0) := by
                rcases h with h1 | ⟨h1, h2⟩ | ⟨h1, h2⟩
                · subst h1
                  rw [if_neg (fun hx => by omega), if_neg (fun hx => by omega)]
                  rfl
                · subst h1
                  subst h2
                  rw [if_neg (fun hx => by simpa using hx.2), if_neg (fun hx => by omega)]
                  rfl
                · subst h2
                  rw [if_pos ⟨by omega, rfl⟩, if_pos ⟨by simp [hfalse], h1⟩]
                  rfl
              rw [hbreak]
          rw [hmid]
          omega

/-- C2 counterexample: in a structure with one top level section holding
two depth 2 sub-sections, the heading of the second sub-section, which is
not the first child emitted under its depth 1 ancestor, appears in the
emission while the emission contains no page break at all; the claimed
rule requires a page break immediately before that heading. -/
theorem claim_C2_counterexample :
    Block.heading 2 "2.C" ∈ emitBlocks exDims exStructC2 ∧
    countPB (emitBlocks exDims exStructC2) = 0 := by
  constructor
  · decide
  · decide

/-- C2 amended: the assembler emits a page break only when it descends
into the children of a node at depth at least 3; the number of page
breaks in the emitted document equals the number of nodes of depth at
least 3 that have children; in particular no page break is ever emitted
before a depth 2 sub-section heading, whether or not it is the first
child of its top level section. -/
theorem claim_C2_page_breaks_amended (dims : String → Option (ℕ × ℕ))
    (s : List FolderNode) :
    countPB (emitBlocks dims s) = deepBranchCount s :=
  emit_countPB dims (forestSize s) s 1 false (Or.inl rfl)

/-! ## Renaming utility -/

/-- Every performed rename pairs the image at some position j of the
processed list with the target computed from the starting index plus j. -/
lemma runRenameFrom_performed : ∀ (imgs : List String) (i : ℕ) (st : List String)
    (s t : String), (s, t) ∈ (runRenameFrom i imgs st).performed →
    ∃ j, j < imgs.length ∧ imgs[j]? = some s ∧ t = renameTarget (i + j) s := by
  intro imgs
  induction imgs with
  | nil =>
      intro i st s t h
      cases h
  | cons img rest ih =>
      intro i st s t h
      simp only [runRenameFrom] at h
      split_ifs at h with hc
      · simp only [List.mem_cons] at h
        rcases h with h | h
        · obtain ⟨rfl, rfl⟩ := Prod.mk.injEq .. ▸ h
          refine ⟨0, by simp, by simp, by simp⟩
        · obtain ⟨j, hj, hget, ht⟩ := ih (i + 1) ((st.erase img).concat (renameTarget i img)) s t h
          exact ⟨j + 1, by simpa using hj, by simpa using hget, by rw [ht]; congr 1; omega⟩
      · obtain ⟨j, hj, hget, ht⟩ := ih (i + 1) st s t h
        exact ⟨j + 1, by simpa using hj, by simpa using hget, by rw [ht]; congr 1; omega⟩

/-- A file that never qualifies as an image survives the whole pass: it is
neither renamed away nor overwritten. -/
lemma runRenameFrom_preserves : ∀ (imgs : List String) (i : ℕ) (st : List String)
    (f : String), f ∈ st → (∀ x ∈ imgs, qualifies x = true) → qualifies f = false →
    f ∈ (runRenameFrom i imgs st).final := by
  intro imgs
  induction imgs with
  | nil =>
      intro i st f hf _ _
      exact hf
  | cons img rest ih =>
      intro i st f hf hq hnq
      have hne : f ≠ img := by
        intro he
        rw [he, hq img (List.mem_cons_self img rest)] at hnq
        cases hnq
      simp only [runRenameFrom]
      split_ifs with hc
      · refine ih (i + 1) _ f ?_ (fun x hx => hq x (List.mem_cons_of_mem img hx)) hnq
        rw [List.concat_eq_append, List.mem_append]
        left
        exact (List.mem_erase_of_ne hne).mpr hf
      · exact ih (i + 1) st f hf (fun x hx => hq x (List.mem_cons_of_mem img hx)) hnq

/-- The pass never creates a duplicate name: it only renames onto names
that are currently absent, so distinct files stay distinct and nothing is
overwritten. -/
lemma runRenameFrom_nodup : ∀ (imgs : List String) (i : ℕ) (st : List String),
    st.Nodup → (runRenameFrom i imgs st).final.Nodup := by
  intro imgs
  induction imgs with
  | nil =>
      intro i st h
      exact h
  | cons img rest ih =>
      intro i st h
      simp only [runRenameFrom]
      split_ifs with hc
      · refine ih (i + 1) _ ?_
        rw [List.concat_eq_append]
        rw [List.nodup_append]
        refine ⟨h.erase img, List.nodup_singleton _, ?_⟩
        intro a ha hb
        rw [List.mem_singleton] at hb
        subst hb
        exact hc.2 (List.mem_of_mem_erase ha)
      · exact ih (i + 1) st h

/-- Every entry of the sorted image list of a folder qualifies. -/
lemma sortedImages_qualify (entries : List String) :
    ∀ x ∈ sortedImages entries, qualifies x = true := by
  intro x hx
  rw [sortedImages, mem_pysort] at hx
  exact List.of_mem_filter hx

/-- C5 counterexample: on the folder listing 0.JPG, 1.jpg, 2.PNG the pass
skips renaming 0.JPG to 1.jpg although 1.jpg is itself one of the files
being renamed in this pass, leaves 0.JPG with its old name in the final
folder, issues no warning, and renames 2.PNG to 3.png with a lowercased
extension; the claim instead requires every qualifying image to be
renumbered, skips to happen only for targets outside the source set, and
extensions to be preserved. -/
theorem claim_C5_counterexample :
    rename_images_pass ["0.JPG", "1.jpg", "2.PNG"] =
      RenameOutcome.mk ["0.JPG", "2.jpg", "3.png"]
        [("1.jpg", "2.jpg"), ("2.PNG", "3.png")]
        [("0.JPG", "1.jpg")] ∧
    "1.jpg" ∈ sortedImages ["0.JPG", "1.jpg", "2.PNG"] ∧
    "0.JPG" ∈ (rename_images_pass ["0.JPG", "1.jpg", "2.PNG"]).final := by
  refine ⟨by decide, by decide, by decide⟩

/-- C5 amended: in the sequential single pass model of a folder, every
performed rename moves the image at sorted position j to the decimal name
j plus 1 with the lowercased extension; a file whose name does not
qualify as an image is never renamed or overwritten and survives the
pass; and when the folder starts without duplicate names it ends without
duplicate names, so no rename ever overwrites an existing file. Skipped
renames produce no warning and occur whenever the target name is the
image itself or currently exists, including when the target is another
not yet renamed source file. -/
theorem claim_C5_rename_conflicts_amended (entries : List String) :
    (∀ s t, (s, t) ∈ (rename_images_pass entries).performed →
      ∃ j, j < (sortedImages entries).length ∧ (sortedImages entries)[j]? = some s ∧
        t = renameTarget (j + 1) s) ∧
    (∀ f ∈ entries, qualifies f = false → f ∈ (rename_images_pass entries).final) ∧
    (entries.Nodup → (rename_images_pass entries).final.Nodup) := by
  refine ⟨?_, ?_, ?_⟩
  · intro s t h
    obtain ⟨j, hj, hget, ht⟩ := runRenameFrom_performed (sortedImages entries) 1 entries s t h
    exact ⟨j, hj, hget, by rw [ht]; congr 1; omega⟩
  · intro f hf hnq
    exact runRenameFrom_preserves (sortedImages entries) 1 entries f hf
      (sortedImages_qualify entries) hnq
  · intro h
    exact runRenameFrom_nodup (sortedImages entries) 1 entries h

/-- Witness for C5 on a folder holding one image and one text file: the
text file survives the pass and the final folder has no duplicates. -/
theorem claim_C5_rename_conflicts_amended_witness :
    "x.txt" ∈ (rename_images_pass ["b.PNG", "x.txt"]).final ∧
    (rename_images_pass ["b.PNG", "x.txt"]).final.Nodup :=
  ⟨(claim_C5_rename_conflicts_amended ["b.PNG", "x.txt"]).2.1 "x.txt" (by decide) (by decide),
   (claim_C5_rename_conflicts_amended ["b.PNG", "x.txt"]).2.2 (by decide)⟩

/-- C8 counterexample: a folder holding the single image a.JPG renames it
to 1.jpg, the lowercased extension, not to 1.JPG with the original
extension preserved as the claim requires. -/
theorem claim_C8_counterexample :
    (rename_images_pass ["a.JPG"]).performed = [("a.JPG", "1.jpg")] ∧
    ("1.jpg" : String) ≠ "1.JPG" ∧
    renameTarget 1 "a.JPG" ≠ "1" ++ ".JPG" := by
  refine ⟨by decide, by decide, by decide⟩

/-- C8 amended: every file renamed by the pass receives the decimal form
of its 1-based natural sort position among the qualifying images of its
folder, followed by its original extension lowercased. -/
theorem claim_C8_rename_names_amended (entries : List String) (s t : String)
    (h : (s, t) ∈ (rename_images_pass entries).performed) :
    ∃ j, j < (sortedImages entries).length ∧ (sortedImages entries)[j]? = some s ∧
      t = Nat.repr (j + 1) ++ lowerSuffix s := by
  obtain ⟨j, hj, hget, ht⟩ := runRenameFrom_performed (sortedImages entries) 1 entries s t h
  refine ⟨j, hj, hget, ?_⟩
  rw [ht, renameTarget]
  congr 2
  omega

/-- Witness for C8 on the single image folder a.JPG. -/
theorem claim_C8_rename_names_amended_witness :
    ∃ j, j < (sortedImages ["a.JPG"]).length ∧ (sortedImages ["a.JPG"])[j]? = some "a.JPG" ∧
      "1.jpg" = Nat.repr (j + 1) ++ lowerSuffix "a.JPG" :=
  claim_C8_rename_names_amended ["a.JPG"] "a.JPG" "1.jpg" (by decide)

/-! ## Saving the document -/

/-- C6: when the output file exists and is locked by another process the
save step returns failure, leaves the file state untouched, and shows the
dedicated close-the-file warning, which is distinct from a generic input
output error. -/
theorem claim_C6_locked_output (st : OutFileState) (doc : ℕ)
    (hex : st.content.isSome = true) (hlock : st.locked = true) :
    (save_document st doc).ok = false ∧
    (save_document st doc).state = st ∧
    (save_document st doc).msg = SaveMessage.closeFileWarning ∧
    (save_document st doc).msg ≠ SaveMessage.genericError := by
  simp [save_document, hex, hlock]

/-- Witness for C6 at a concrete existing locked file. -/
theorem claim_C6_locked_output_witness :
    (save_document (OutFileState.mk (some 7) true) 5).ok = false ∧
    (save_document (OutFileState.mk (some 7) true) 5).state = OutFileState.mk (some 7) true ∧
    (save_document (OutFileState.mk (some 7) true) 5).msg = SaveMessage.closeFileWarning ∧
    (save_document (OutFileState.mk (some 7) true) 5).msg ≠ SaveMessage.genericError :=
  claim_C6_locked_output (OutFileState.mk (some 7) true) 5 rfl rfl

/-! ## Fuel stability

The top level wrappers pass a size as fuel; the lemmas below show the
fueled recursions are independent of the fuel once it covers the size, so
the wrappers compute the untruncated semantics of the Python recursions. -/

/-- Entry list sizes are positive. -/
lemma entriesSize_pos (l : List FSEntry) : 1 ≤ entriesSize l := by
  cases l with
  | nil => exact le_refl 1
  | cons e rest => simp [entriesSize]; omega

/-- A member entry is smaller than its list. -/
lemma entrySize_lt_of_mem : ∀ (l : List FSEntry) (e : FSEntry), e ∈ l →
    entrySize e < entriesSize l := by
  intro l
  induction l with
  | nil =>
      intro e he
      cases he
  | cons x rest ih =>
      intro e he
      rcases List.mem_cons.mp he with rfl | hmem
      · simp only [entriesSize]
        have := entriesSize_pos rest
        omega
      · have := ih e hmem
        simp only [entriesSize]
        omega

/-- The walker ignores fuel beyond the entry list size. -/
lemma collectListF_stable : ∀ (f g : ℕ) (entries : List FSEntry) (level : ℕ),
    entriesSize entries ≤ f → entriesSize entries ≤ g →
    collectListF f entries level = collectListF g entries level := by
  intro f
  induction f with
  | zero =>
      intro g entries level hf _
      have := entriesSize_pos entries
      omega
  | succ f ih =>
      intro g entries level hf hg
      cases g with
      | zero =>
          have := entriesSize_pos entries
          omega
      | succ g =>
          simp only [collectListF]
          apply List.filterMap_congr
          intro e he
          have hmem := (mem_pysort entryKey entries e).mp he
          cases e with
          | file nm => rfl
          | dir nm children =>
              have hlt := entrySize_lt_of_mem entries (FSEntry.dir nm children) hmem
              have hsz : entrySize (FSEntry.dir nm children) = 1 + entriesSize children := rfl
              have hrec : collectListF f children (level + 1)
                  = collectListF g children (level + 1) :=
                ih g children (level + 1) (by omega) (by omega)
              simp only [hrec]

/-- Forest sizes are positive. -/
lemma forestSize_pos (l : List FolderNode) : 1 ≤ forestSize l := by
  cases l with
  | nil => exact le_refl 1
  | cons n rest => simp [forestSize]; omega

/-- The emitter ignores fuel beyond the forest size. -/
lemma emitForestF_stable (dims : String → Option (ℕ × ℕ)) :
    ∀ (f g : ℕ) (forest : List FolderNode) (level : ℕ) (flag : Bool),
    forestSize forest ≤ f → forestSize forest ≤ g →
    emitForestF dims f forest level flag = emitForestF dims g forest level flag := by
  intro f
  induction f with
  | zero =>
      intro g forest level flag hf _
      have := forestSize_pos forest
      omega
  | succ f ih =>
      intro g forest level flag hf hg
      cases g with
      | zero =>
          have := forestSize_pos forest
          omega
      | succ g =>
          revert hf hg
          induction forest with
          | nil =>
              intro _ _
              rfl
          | cons n rest ihf =>
              intro hf hg
              have hnode : nodeSize n = 1 + forestSize n.subs := by cases n; rfl
              have hsz : forestSize (n :: rest) = 1 + nodeSize n + forestSize rest := rfl
              have hrest := ihf (by omega) (by omega)
              rw [emitForestF_cons dims f n rest level flag,
                emitForestF_cons dims g n rest level flag, hrest,
                ih g n.subs (level + 1) (decide (level = 1)) (by omega) (by omega)]
